import Mathlib

/-!
# Health-check scheduling of `containrunner` (checker.go)

A shallow embedding of the check engine of `src/containrunner/checker.go`:
the probe primitives, the per-service probe worker, the configuration
dispatcher and the `CheckEngine` facade, followed by the properties proved
about them.

Conventions of the embedding.

* Go `string` values are Lean `String`s, one `Char` standing for one unit of
  the Go string; `strings.HasPrefix` and `strings.Index` are embedded on the
  sequences of units.
* Go `int` fields (`Delay`, `EndpointPort`, ...) are `Int`; the code
  compares and copies them. The one piece of arithmetic on them is the
  argument of the sleep, `time.Millisecond * time.Duration(delay)`, a product
  of `int64` nanoseconds: it is embedded with the wrap-around of `int64`.
* `time.Time` is a natural-number timestamp, the zero value being `0`;
  the reading of `time.Now()` is an input of the probe round.
* Network I/O is an input: every probe of a round receives the outcome of
  its exchange from a stream of `ProbeIO` values indexed by the position of
  the check in the list.
* Channels are handles (`Nat`) into a record of closed channels; `close` of
  a nil or a closed channel and a send on a closed channel are runtime
  panics, returned as `Except.error`.
-/

namespace Containrunner

/-! ## Data model -/

/-- Embedding of `ServiceCheck` (checker.go 10-23). The Go field `Type` is
named `Type_`, since `Type` is reserved. -/
structure ServiceCheck where
  Type_ : String
  Url : String
  HttpHost : String
  Username : String
  Password : String
  HostPort : String
  DummyResult : Bool
  ExpectHttpStatus : String
  ExpectString : String
  ConnectTimeout : Int
  ResponseTimeout : Int
  Delay : Int
deriving DecidableEq

/-- Modelled from the spec: `ServiceConfiguration` is declared outside the
two source files; the dispatcher reads `EndpointPort`, `Checks`, the
optional `Container` binding and `GetRevision()` from it. The container
binding and the revision are payloads that the check engine only forwards. -/
structure ServiceConfiguration where
  EndpointPort : Int
  Checks : List ServiceCheck
  Container : Option String
  Revision : String
deriving DecidableEq

/-- Modelled from the spec: `EndpointInfo` is declared outside the two source
files; the dispatcher fills exactly these two fields (checker.go 116-119). -/
structure EndpointInfo where
  Revision : String
  ServiceConfiguration : ServiceConfiguration
deriving DecidableEq

/-- Embedding of `ServiceChecks` (checker.go 34-39); the pointer
`*EndpointInfo` is an `Option`. -/
structure ServiceChecks where
  ServiceName : String
  EndpointPort : Int
  Checks : List ServiceCheck
  EndpointInfo : Option EndpointInfo
deriving DecidableEq

/-- The zero value of `ServiceChecks` (`var serviceChecks ServiceChecks`). -/
def ServiceChecks.zero : ServiceChecks :=
  { ServiceName := "", EndpointPort := 0, Checks := [], EndpointInfo := none }

/-- Embedding of `ServiceState` (checker.go 48-54). -/
inductive ServiceState where
  | SSUnknown
  | SSUp
  | SSDown
deriving DecidableEq

/-- Modelled from the spec: `ServiceStateEvent` is declared outside the two
source files; these are the fields the worker assigns (checker.go 166-203). -/
structure ServiceStateEvent where
  Service : String
  Endpoint : String
  EndpointInfo : Option EndpointInfo
  IsUp : Bool
  StateChanged : Bool
  SameStateSince : Nat
deriving DecidableEq

/-! ## Probe primitives -/

/-- Embedding of `strings.HasPrefix(s, prefix)`:
`len(s) >= len(prefix) && s[0:len(prefix)] == prefix`. -/
def hasPrefix (s pre : List Char) : Bool :=
  decide (pre.length ≤ s.length) && decide (s.take pre.length = pre)

/-- Embedding of `strings.Index(s, substr)`: the index of the first instance
of `substr` in `s`, or `-1` if `substr` is not present in `s`. -/
def stringsIndex : List Char → List Char → Int
  | [], sub => if hasPrefix [] sub then 0 else -1
  | c :: s, sub =>
    if hasPrefix (c :: s) sub then 0
    else
      let r := stringsIndex s sub
      if r = -1 then -1 else r + 1

/-- Outcome of `ioutil.ReadAll(resp.Body)`: the whole body, or an error
together with the bytes that were read before it. -/
inductive BodyRead where
  | full (body : String)
  | failed (readSoFar : String)
deriving DecidableEq

/-- Outcome of `client.Do(req)`: an error, or a response with its status
line and its body stream. -/
inductive HttpExchange where
  | transportError
  | response (status : String) (body : BodyRead)
deriving DecidableEq

/-- What the network answers to the probe of one check. -/
structure ProbeIO where
  http : HttpExchange
  tcpDialOk : Bool
deriving DecidableEq

/-- The bytes `ioutil.ReadAll` hands back, in both outcomes. -/
def BodyRead.bytes : BodyRead → String
  | .full b => b
  | .failed b => b

/-- Whether `ioutil.ReadAll` reported an error. -/
def BodyRead.err : BodyRead → Bool
  | .full _ => false
  | .failed _ => true

/-- Embedding of `CheckHttpService` (checker.go 232-298). The timeouts, the
`Host` header and the credentials shape the request, which is taken to be
well formed (`http.NewRequest` returned one); the result of `client.Do` and
of reading the body is the input `ex`. -/
def CheckHttpService (check : ServiceCheck) (ex : HttpExchange) : Bool :=
  match ex with
  | .transportError => false
  | .response status body =>
    let ok := true
    let ok :=
      if check.ExpectHttpStatus ≠ "" ∧ ¬ hasPrefix status.data check.ExpectHttpStatus.data = true
      then false else ok
    let ok :=
      if check.ExpectHttpStatus = "" ∧ ¬ hasPrefix status.data "200".data = true
      then false else ok
    if check.ExpectString ≠ "" then
      let ok := if body.err then false else ok
      let ok :=
        if stringsIndex body.bytes.data check.ExpectString.data = -1 then false else ok
      ok
    else ok

/-- Embedding of `CheckDummyService` (checker.go 300-302). -/
def CheckDummyService (check : ServiceCheck) : Bool :=
  check.DummyResult

/-- Embedding of `CheckTcpService` (checker.go 304-323): true iff the dial
returned no error. -/
def CheckTcpService (_check : ServiceCheck) (dialOk : Bool) : Bool :=
  if ¬ dialOk = true then false else true

/-! ## Service probe worker -/

/-- The local variables of `CheckServiceWorker` that survive an iteration of
its loop (checker.go 144-148 and the parameter `delay`). -/
structure WorkerState where
  serviceChecks : ServiceChecks
  state : ServiceState
  sameStateSince : Nat
  delay : Int
deriving DecidableEq

/-- The worker as `CheckServiceWorker` starts it: zero-valued
`serviceChecks`, `state = SSUnknown`, zero `sameStateSince`, and the `delay`
argument. -/
def WorkerState.init (delay : Int) : WorkerState :=
  { serviceChecks := ServiceChecks.zero, state := ServiceState.SSUnknown,
    sameStateSince := 0, delay := delay }

/-- The variables written by the loop over `serviceChecks.Checks`
(checker.go 170-187). -/
structure CheckLoopVars where
  delay : Int
  ok : Bool
  IsUp : Bool
deriving DecidableEq

/-- One pass of the body of `for _, check := range serviceChecks.Checks`
(checker.go 173-186); `io` is the network's answer to this check. -/
def checkBody (check : ServiceCheck) (io : ProbeIO) (v : CheckLoopVars) : CheckLoopVars :=
  let delay := if check.Delay > 0 then check.Delay else v.delay
  let ok :=
    if check.Type_ = "dummy" then CheckDummyService check
    else if check.Type_ = "http" then CheckHttpService check io.http
    else if check.Type_ = "tcp" then CheckTcpService check io.tcpDialOk
    else v.ok
  let IsUp := if ¬ ok = true then false else v.IsUp
  { delay := delay, ok := ok, IsUp := IsUp }

/-- The loop over `serviceChecks.Checks` (checker.go 172-187); `io n` is the
network's answer to the check at position `n` of the list. -/
def checkLoop : List ServiceCheck → (Nat → ProbeIO) → CheckLoopVars → CheckLoopVars
  | [], _, v => v
  | check :: rest, io, v => checkLoop rest (fun n => io (n + 1)) (checkBody check (io 0) v)

/-- Embedding of `fmt.Sprintf("%s:%d", endpointAddress, port)`. -/
def formatEndpoint (endpointAddress : String) (port : Int) : String :=
  endpointAddress ++ ":" ++ toString port

/-- The `default` branch of the worker's `select` (checker.go 163-207): one
probe round at clock reading `now`. Returns the worker's variables after the
round and the event pushed to `results`. -/
def probeRound (endpointAddress : String) (w : WorkerState) (now : Nat)
    (io : Nat → ProbeIO) : WorkerState × ServiceStateEvent :=
  let v := checkLoop w.serviceChecks.Checks io { delay := w.delay, ok := true, IsUp := true }
  let newState := if v.ok then ServiceState.SSUp else ServiceState.SSDown
  let changed : Bool := decide (newState ≠ w.state)
  let sameStateSince := if changed then now else w.sameStateSince
  ( { serviceChecks := w.serviceChecks, state := newState,
      sameStateSince := sameStateSince, delay := v.delay },
    { Service := w.serviceChecks.ServiceName,
      Endpoint := formatEndpoint endpointAddress w.serviceChecks.EndpointPort,
      EndpointInfo := w.serviceChecks.EndpointInfo,
      IsUp := v.IsUp,
      StateChanged := changed,
      SameStateSince := sameStateSince } )

/-- What the `select` of the worker finds on `serviceChecksChannel`: a
pending update, a closed channel, or nothing (the `default` branch runs). -/
inductive Poll where
  | received (newServiceChecks : ServiceChecks)
  | closed
  | notReady
deriving DecidableEq

/-- The value of an integer expression in `int64`: two's complement
wrap-around into `-2^63 .. 2^63 - 1`. -/
def wrapInt64 (x : Int) : Int :=
  (x + 9223372036854775808) % 18446744073709551616 - 9223372036854775808

/-- The constant `time.Millisecond`, in nanoseconds. -/
def Millisecond : Int := 1000000

/-- Embedding of `time.Millisecond * time.Duration(delay)` (checker.go 211):
the `time.Duration`, in `int64` nanoseconds, handed to `time.Sleep`. A
duration that is zero or negative makes `time.Sleep` return at once. -/
def sleepDuration (delay : Int) : Int :=
  wrapInt64 (Millisecond * delay)

/-- What one iteration of the worker loop does: the variables after it, the
event it pushed (if any), and the `time.Duration` (nanoseconds) handed to the
`time.Sleep` that ends the iteration (`none` when the worker returned
instead). -/
structure Iteration where
  worker : WorkerState
  event : Option ServiceStateEvent
  sleep : Option Int

/-- The `case newServiceChecks, alive := <-serviceChecksChannel` branch on an
open channel (checker.go 151-161, `alive = true`). -/
def applyUpdate (w : WorkerState) (newServiceChecks : ServiceChecks) : Iteration :=
  let w1 := { w with serviceChecks := newServiceChecks }
  { worker := w1, event := none, sleep := some (sleepDuration w1.delay) }

/-- One iteration of `for alive { select { ... } ; time.Sleep(...) }`
(checker.go 149-212). -/
def workerIteration (endpointAddress : String) (w : WorkerState) (poll : Poll) (now : Nat)
    (io : Nat → ProbeIO) : Iteration :=
  match poll with
  | .received newServiceChecks => applyUpdate w newServiceChecks
  | .closed =>
    { worker := { w with serviceChecks := ServiceChecks.zero }, event := none, sleep := none }
  | .notReady =>
    let r := probeRound endpointAddress w now io
    { worker := r.1, event := some r.2, sleep := some (sleepDuration r.1.delay) }

/-- The environment of one loop iteration: the channel poll, the clock and
the network. -/
structure WorkerInput where
  poll : Poll
  now : Nat
  io : Nat → ProbeIO

/-- The events a worker pushes, in order, while it runs through the given
iterations; it stops at the first closed poll. -/
def runWorker (endpointAddress : String) : WorkerState → List WorkerInput → List ServiceStateEvent
  | _, [] => []
  | w, i :: rest =>
    let it := workerIteration endpointAddress w i.poll i.now i.io
    match it.sleep with
    | none => it.event.toList
    | some _ => it.event.toList ++ runWorker endpointAddress it.worker rest

/-! ## Channels and maps -/

/-- The ways the modelled code can stop abnormally: the three channel
panics of the Go runtime, and a send on a nil channel (which blocks for
ever). -/
inductive Fault where
  | closeOfNilChannel
  | closeOfClosedChannel
  | sendOnClosedChannel
  | sendOnNilChannel
deriving DecidableEq

/-- The channels of the process: handles `0 .. nextChan - 1` have been made,
those in `closed` have been closed. -/
structure Chans where
  nextChan : Nat
  closed : List Nat
deriving DecidableEq

/-- Embedding of `make(chan T)`: a handle that was not in use before. -/
def Chans.make (h : Chans) : Nat × Chans :=
  (h.nextChan, { h with nextChan := h.nextChan + 1 })

/-- Embedding of `close(c)`; a channel variable is `none` when it is nil. -/
def Chans.close (h : Chans) (c : Option Nat) : Except Fault Chans :=
  match c with
  | none => Except.error Fault.closeOfNilChannel
  | some c =>
    if c ∈ h.closed then Except.error Fault.closeOfClosedChannel
    else Except.ok { h with closed := c :: h.closed }

/-- Embedding of `m[name]` with the `found` flag, for a Go map held as a list
of its entries. -/
def mapGet {β : Type} : List (String × β) → String → Option β
  | [], _ => none
  | (k, v) :: m, name => if k = name then some v else mapGet m name

/-- Embedding of `delete(m, name)`. -/
def mapDelete {β : Type} (m : List (String × β)) (name : String) : List (String × β) :=
  m.filter (fun e => decide (e.1 ≠ name))

/-- Embedding of `m[name] = v`. -/
def mapSet {β : Type} (m : List (String × β)) (name : String) (v : β) : List (String × β) :=
  mapDelete m name ++ [(name, v)]

/-! ## Configuration dispatcher -/

/-- Modelled from the spec: `MachineConfiguration` is declared outside the
two source files; the dispatcher reads its map `Services` from service name
to bound service, of which it uses `GetConfig()`. The map is held as the
list of its entries, each value being the result of `GetConfig()`. -/
structure MachineConfiguration where
  Services : List (String × ServiceConfiguration)
deriving DecidableEq

/-- The arguments of one `go CheckServiceWorker(...)` (checker.go 107). -/
structure WorkerArgs where
  serviceChecksChannel : Option Nat
  results : Nat
  endpointAddress : String
  delay : Int
deriving DecidableEq

/-- The arguments of `CheckConfigUpdateWorker` (checker.go 74). -/
structure DispatcherArgs where
  configurations : Option Nat
  results : Nat
  endpointAddress : String
  delay : Int
deriving DecidableEq

/-- The state of `CheckConfigUpdateWorker` and its effects so far: the map
`serviceCheckWorkerChannels`, the channels of the process, the workers
started with `go`, and the values sent on worker channels. -/
structure DispatcherState where
  serviceCheckWorkerChannels : List (String × Nat)
  chans : Chans
  spawned : List WorkerArgs
  sent : List (Nat × ServiceChecks)
deriving DecidableEq

/-- The dispatcher as `CheckConfigUpdateWorker` starts: an empty map. -/
def DispatcherState.init (chans : Chans) : DispatcherState :=
  { serviceCheckWorkerChannels := [], chans := chans, spawned := [], sent := [] }

/-- The first loop over `serviceCheckWorkerChannels` (checker.go 91-99), run
over the entries `entries` of the map as they were when the loop began. -/
def removeLoop (configuration : MachineConfiguration) :
    List (String × Nat) → DispatcherState → Except Fault DispatcherState
  | [], st => Except.ok st
  | (name, c) :: rest, st =>
    match mapGet configuration.Services name with
    | some _ => removeLoop configuration rest st
    | none =>
      match st.chans.close (some c) with
      | Except.error f => Except.error f
      | Except.ok chans =>
        removeLoop configuration rest
          { st with chans := chans,
                    serviceCheckWorkerChannels := mapDelete st.serviceCheckWorkerChannels name }

/-- Embedding of `ch <- cc` on a worker channel: nil blocks for ever, closed
panics, otherwise the value is handed to the worker. -/
def sendChecks (st : DispatcherState) (ch : Option Nat) (cc : ServiceChecks) :
    Except Fault DispatcherState :=
  match ch with
  | none => Except.error Fault.sendOnNilChannel
  | some c =>
    if c ∈ st.chans.closed then Except.error Fault.sendOnClosedChannel
    else Except.ok { st with sent := st.sent ++ [(c, cc)] }

/-- The `ServiceChecks` value built for one service (checker.go 110-120). -/
def buildServiceChecks (name : String) (service : ServiceConfiguration) : ServiceChecks :=
  { ServiceName := name,
    EndpointPort := service.EndpointPort,
    Checks := service.Checks,
    EndpointInfo :=
      match service.Container with
      | some _ => some { Revision := service.Revision, ServiceConfiguration := service }
      | none => none }

/-- The `if !found` block of the second loop (checker.go 102-108). -/
def ensureWorker (args : DispatcherArgs) (st : DispatcherState) (name : String) :
    DispatcherState :=
  match mapGet st.serviceCheckWorkerChannels name with
  | some _ => st
  | none =>
    let mk := st.chans.make
    let m := mapSet st.serviceCheckWorkerChannels name mk.1
    { st with
      chans := mk.2,
      serviceCheckWorkerChannels := m,
      spawned := st.spawned ++
        [{ serviceChecksChannel := mapGet m name, results := args.results,
           endpointAddress := args.endpointAddress, delay := args.delay }] }

/-- The loop over `configuration.Services` (checker.go 101-123). -/
def addLoop (args : DispatcherArgs) :
    List (String × ServiceConfiguration) → DispatcherState → Except Fault DispatcherState
  | [], st => Except.ok st
  | (name, service) :: rest, st =>
    let st1 := ensureWorker args st name
    let cc := buildServiceChecks name service
    match sendChecks st1 (mapGet st1.serviceCheckWorkerChannels name) cc with
    | Except.error f => Except.error f
    | Except.ok st2 => addLoop args rest st2

/-- The `if alive` branch of `CheckConfigUpdateWorker` (checker.go 86-123):
what the dispatcher does with one received configuration. -/
def processConfiguration (args : DispatcherArgs) (st : DispatcherState)
    (newConf : MachineConfiguration) : Except Fault DispatcherState :=
  match removeLoop newConf st.serviceCheckWorkerChannels st with
  | Except.error f => Except.error f
  | Except.ok st1 => addLoop args newConf.Services st1

/-- The loop of the `else` branch (checker.go 126-129): close every worker
channel. -/
def closeAll : List (String × Nat) → Chans → Except Fault Chans
  | [], h => Except.ok h
  | (_, c) :: rest, h =>
    match h.close (some c) with
    | Except.error f => Except.error f
    | Except.ok h1 => closeAll rest h1

/-- One iteration of the dispatcher loop (checker.go 80-134): `recv` is what
`<-configurations` delivers, `none` when the channel is closed. The flag
tells whether the dispatcher goes on. -/
def dispatcherIteration (args : DispatcherArgs) (st : DispatcherState)
    (recv : Option MachineConfiguration) : Except Fault (DispatcherState × Bool) :=
  match recv with
  | some newConf =>
    match processConfiguration args st newConf with
    | Except.error f => Except.error f
    | Except.ok st1 => Except.ok (st1, true)
  | none =>
    match closeAll st.serviceCheckWorkerChannels st.chans with
    | Except.error f => Except.error f
    | Except.ok h => Except.ok ({ st with chans := h }, false)

/-- The dispatcher's invariant: names and channels of the map are pairwise
distinct, every mapped channel has been made, is open and has a worker, the
workers were started on pairwise distinct, made channels, and only made
channels have been closed. -/
def DispatcherState.WF (st : DispatcherState) : Prop :=
  (st.serviceCheckWorkerChannels.map Prod.fst).Nodup ∧
  (st.serviceCheckWorkerChannels.map Prod.snd).Nodup ∧
  (∀ e ∈ st.serviceCheckWorkerChannels,
    e.2 < st.chans.nextChan ∧ e.2 ∉ st.chans.closed ∧
    some e.2 ∈ st.spawned.map WorkerArgs.serviceChecksChannel) ∧
  (st.spawned.map WorkerArgs.serviceChecksChannel).Nodup ∧
  (∀ w ∈ st.spawned, ∃ c ∈ w.serviceChecksChannel, c < st.chans.nextChan) ∧
  (∀ c ∈ st.chans.closed, c < st.chans.nextChan)

instance (st : DispatcherState) : Decidable st.WF := by
  unfold DispatcherState.WF
  infer_instance

/-- How the second loop of the dispatcher may change its state: no channel
is closed, channels are only made, mapped names keep their channel, and the
workers `new` are started, each for a name that had no channel, on the
channel made for that name. -/
structure Grows (args : DispatcherArgs) (st st1 : DispatcherState)
    (new : List WorkerArgs) : Prop where
  closed_eq : st1.chans.closed = st.chans.closed
  next_le : st.chans.nextChan ≤ st1.chans.nextChan
  kept : ∀ name c, mapGet st.serviceCheckWorkerChannels name = some c →
    mapGet st1.serviceCheckWorkerChannels name = some c
  spawned_eq : st1.spawned = st.spawned ++ new
  started : ∀ w ∈ new, w.results = args.results ∧ w.endpointAddress = args.endpointAddress ∧
    w.delay = args.delay ∧
    ∃ c name, w.serviceChecksChannel = some c ∧ st.chans.nextChan ≤ c ∧
      mapGet st.serviceCheckWorkerChannels name = none ∧
      mapGet st1.serviceCheckWorkerChannels name = some c
  fresh : ∀ name c, mapGet st.serviceCheckWorkerChannels name = none →
    mapGet st1.serviceCheckWorkerChannels name = some c →
    st.chans.nextChan ≤ c ∧
      ({ serviceChecksChannel := some c, results := args.results,
         endpointAddress := args.endpointAddress, delay := args.delay } : WorkerArgs) ∈ new

/-! ## Check engine facade -/

/-- Embedding of `CheckEngine` (checker.go 41-46); a channel field is `none`
when it is nil. -/
structure CheckEngine where
  jobs : Option Nat
  results : Option Nat
  configurations : Option Nat
  endpointAddress : String
deriving DecidableEq

/-- The zero value of `CheckEngine` (`var checkEngine CheckEngine`,
containrunner.go 40). -/
def CheckEngine.zero : CheckEngine :=
  { jobs := none, results := none, configurations := none, endpointAddress := "" }

/-- What `Start` leaves behind: the engine, the channels of the process, and
the arguments of the dispatcher it started with `go`. -/
structure Started where
  ce : CheckEngine
  chans : Chans
  dispatcher : DispatcherArgs
deriving DecidableEq

/-- Embedding of `CheckEngine.Start` (checker.go 56-62). -/
def CheckEngine.Start (ce : CheckEngine) (h : Chans) (_workers : Int) (results : Nat)
    (endpointAddress : String) (_intervalInMs : Int) : Started :=
  let mk := h.make
  let ce1 := { ce with configurations := some mk.1 }
  let ce2 := { ce1 with endpointAddress := endpointAddress }
  { ce := ce2, chans := mk.2,
    dispatcher := { configurations := ce2.configurations, results := results,
                    endpointAddress := endpointAddress, delay := 2000 } }

/-- Embedding of `CheckEngine.Stop` (checker.go 64-68). -/
def CheckEngine.Stop (ce : CheckEngine) (h : Chans) : Except Fault Chans :=
  match h.close ce.jobs with
  | Except.error f => Except.error f
  | Except.ok h1 =>
    match h1.close ce.results with
    | Except.error f => Except.error f
    | Except.ok h2 => h2.close ce.configurations

/-! ## Specification-side definitions

These follow the words of the specification, to be compared with the
embedding of the code above. -/

/-- A check of a recognised type: `dummy`, `http` or `tcp`. -/
def recognised (check : ServiceCheck) : Prop :=
  check.Type_ = "dummy" ∨ check.Type_ = "http" ∨ check.Type_ = "tcp"

instance (check : ServiceCheck) : Decidable (recognised check) := by
  unfold recognised
  infer_instance

/-- What the probe matching the type of a recognised check returns. -/
def probeResult (check : ServiceCheck) (io : ProbeIO) : Bool :=
  if check.Type_ = "dummy" then CheckDummyService check
  else if check.Type_ = "http" then CheckHttpService check io.http
  else CheckTcpService check io.tcpDialOk

/-- The round delay by the rule of the specification: the `delay` of the
last check of the list whose `delay` is positive, else the prior delay. -/
def lastPositiveDelay (checks : List ServiceCheck) (d : Int) : Int :=
  match (checks.filter (fun c => decide (c.Delay > 0))).getLast? with
  | some c => c.Delay
  | none => d

/-- The status prefix the HTTP probe expects: `expectHttpStatus`, or `200`
when that is empty. -/
def expectedStatus (check : ServiceCheck) : String :=
  if check.ExpectHttpStatus = "" then "200" else check.ExpectHttpStatus

/-! ## Example scenarios -/

/-- A TCP check of `127.0.0.1:80` with every other field at its zero value. -/
def tcpCheck : ServiceCheck :=
  { Type_ := "tcp", Url := "", HttpHost := "", Username := "", Password := "",
    HostPort := "127.0.0.1:80", DummyResult := false, ExpectHttpStatus := "",
    ExpectString := "", ConnectTimeout := 0, ResponseTimeout := 0, Delay := 0 }

/-- A service `web` on port 80 with two TCP checks. -/
def webChecks : ServiceChecks :=
  { ServiceName := "web", EndpointPort := 80, Checks := [tcpCheck, tcpCheck],
    EndpointInfo := none }

/-- A network on which every dial succeeds. -/
def allDialsOk : Nat → ProbeIO :=
  fun _ => { http := HttpExchange.transportError, tcpDialOk := true }

/-- A network on which the dial of the first check fails and every later
one succeeds. -/
def firstDialFails : Nat → ProbeIO :=
  fun n => { http := HttpExchange.transportError, tcpDialOk := decide (n ≠ 0) }

/-- A worker's first three iterations: the update carrying `webChecks`, a
probe round at time 10 whose first dial fails, a probe round at time 20
whose dials all succeed. -/
def twoRounds : List WorkerInput :=
  [ { poll := Poll.received webChecks, now := 0, io := allDialsOk },
    { poll := Poll.notReady, now := 10, io := firstDialFails },
    { poll := Poll.notReady, now := 20, io := allDialsOk } ]

/-- A TCP check whose `Delay` is the largest `int64`. -/
def longDelayCheck : ServiceCheck :=
  { tcpCheck with Delay := 9223372036854775807 }

/-- A worker in state Up, with default delay 2000, whose only check is
`longDelayCheck`. -/
def longDelayWorker : WorkerState :=
  { serviceChecks :=
      { ServiceName := "web", EndpointPort := 80, Checks := [longDelayCheck],
        EndpointInfo := none },
    state := ServiceState.SSUp, sameStateSince := 5, delay := 2000 }

/-- A service configuration with one TCP check and no container binding. -/
def tcpService : ServiceConfiguration :=
  { EndpointPort := 80, Checks := [tcpCheck], Container := none, Revision := "" }

/-- Dispatcher arguments: event sink `9`, node address `10.0.0.1`, default
delay 2000 ms. -/
def nodeArgs : DispatcherArgs :=
  { configurations := some 0, results := 9, endpointAddress := "10.0.0.1", delay := 2000 }

/-- A dispatcher that runs workers for the services `A` and `B`. -/
def runningAB : DispatcherState :=
  { serviceCheckWorkerChannels := [("A", 1), ("B", 2)],
    chans := { nextChan := 3, closed := [] },
    spawned :=
      [ { serviceChecksChannel := some 1, results := 9, endpointAddress := "10.0.0.1",
          delay := 2000 },
        { serviceChecksChannel := some 2, results := 9, endpointAddress := "10.0.0.1",
          delay := 2000 } ],
    sent := [] }

/-- A configuration with the services `B` and `C`. -/
def confBC : MachineConfiguration :=
  { Services := [("B", tcpService), ("C", tcpService)] }

/-! ## Strings -/

theorem hasPrefix_iff (s pre : List Char) : hasPrefix s pre = true ↔ pre <+: s := by
  unfold hasPrefix
  rw [List.prefix_iff_eq_take]
  constructor
  · intro h
    simp only [Bool.and_eq_true, decide_eq_true_eq] at h
    exact h.2.symm
  · intro h
    simp only [Bool.and_eq_true, decide_eq_true_eq]
    refine ⟨?_, h.symm⟩
    have := congrArg List.length h
    simp only [List.length_take] at this
    omega

theorem stringsIndex_ge (s sub : List Char) : -1 ≤ stringsIndex s sub := by
  induction s with
  | nil => unfold stringsIndex; split <;> omega
  | cons c s ih =>
    unfold stringsIndex
    split
    · omega
    · simp only
      split <;> omega

theorem stringsIndex_eq_neg_one_iff (s sub : List Char) :
    stringsIndex s sub = -1 ↔ ¬ sub <:+: s := by
  induction s with
  | nil =>
    unfold stringsIndex
    by_cases h : hasPrefix [] sub = true
    · have h2 := (hasPrefix_iff [] sub).1 h
      simp [h, h2.isInfix]
    · have h2 : ¬ sub <+: [] := fun hp => h ((hasPrefix_iff [] sub).2 hp)
      simp only [h]
      simp only [List.prefix_nil] at h2
      simp [h2]
  | cons c s ih =>
    unfold stringsIndex
    rw [List.infix_cons_iff]
    by_cases h : hasPrefix (c :: s) sub = true
    · have h2 := (hasPrefix_iff (c :: s) sub).1 h
      simp [h, h2]
    · have h2 : ¬ sub <+: c :: s := fun hp => h ((hasPrefix_iff _ sub).2 hp)
      have hge := stringsIndex_ge s sub
      simp only [h, h2, false_or]
      rw [← ih]
      simp only [Bool.false_eq_true, if_false]
      constructor
      · intro hh
        by_contra hne
        rw [if_neg hne] at hh
        omega
      · intro hh
        simp [hh]

/-! ## Probe primitives: the HTTP probe -/

/-- C8: `CheckHttpService` returns true iff the exchange yielded a response
(no transport error), the status line begins with `expectHttpStatus` (with
"200" when that is empty), and `expectString` is empty or the body was read
fully and contains `expectString` as a substring. -/
theorem CheckHttpService_true_iff (check : ServiceCheck) (ex : HttpExchange) :
    CheckHttpService check ex = true ↔
      ∃ status body, ex = HttpExchange.response status body ∧
        (expectedStatus check).data <+: status.data ∧
        (check.ExpectString = "" ∨
          ∃ b, body = BodyRead.full b ∧ check.ExpectString.data <:+: b.data) := by
  cases ex with
  | transportError => simp [CheckHttpService]
  | response status body =>
    have hidx := stringsIndex_eq_neg_one_iff body.bytes.data check.ExpectString.data
    have hst : (expectedStatus check).data <+: status.data ↔
        ((check.ExpectHttpStatus ≠ "" → hasPrefix status.data check.ExpectHttpStatus.data = true) ∧
         (check.ExpectHttpStatus = "" → hasPrefix status.data "200".data = true)) := by
      unfold expectedStatus
      by_cases he : check.ExpectHttpStatus = ""
      · simp [he, hasPrefix_iff]
      · simp [he, hasPrefix_iff]
    have hbody : (check.ExpectString = "" ∨
          ∃ b, body = BodyRead.full b ∧ check.ExpectString.data <:+: b.data) ↔
        (check.ExpectString ≠ "" →
          body.err = false ∧ ¬ stringsIndex body.bytes.data check.ExpectString.data = -1) := by
      rw [hidx]
      by_cases he : check.ExpectString = ""
      · simp [he]
      · cases body with
        | full b => simp [he, BodyRead.err, BodyRead.bytes]
        | failed b => simp [he, BodyRead.err]
    constructor
    · intro h
      refine ⟨status, body, rfl, ?_, ?_⟩
      · rw [hst]
        unfold CheckHttpService at h
        simp only at h
        constructor
        · intro hne
          by_contra hp
          simp [hne, hp] at h
        · intro he
          by_contra hp
          simp [he, hp] at h
      · rw [hbody]
        intro hne
        unfold CheckHttpService at h
        simp only [hne, ne_eq, not_false_eq_true, if_true] at h
        constructor
        · by_contra hp
          simp [hp] at h
        · intro hp
          simp [hp] at h
    · rintro ⟨status', body', heq, h1, h2⟩
      cases heq
      rw [hst] at h1
      rw [hbody] at h2
      unfold CheckHttpService
      simp only
      by_cases he : check.ExpectHttpStatus = ""
      · have hp := h1.2 he
        by_cases hs : check.ExpectString = ""
        · simp [he, hp, hs]
        · have := h2 hs
          simp [he, hp, hs, this.1, this.2]
      · have hp := h1.1 he
        by_cases hs : check.ExpectString = ""
        · simp [he, hp, hs]
        · have := h2 hs
          simp [he, hp, hs, this.1, this.2]

/-! ## Service probe worker: the loop over the checks -/

theorem checkBody_ok_of_recognised (check : ServiceCheck) (io : ProbeIO) (v : CheckLoopVars)
    (h : recognised check) : (checkBody check io v).ok = probeResult check io := by
  unfold checkBody probeResult
  rcases h with h | h | h
  · simp [h]
  · by_cases h1 : check.Type_ = "dummy"
    · simp [h1]
    · simp [h1, h]
  · by_cases h1 : check.Type_ = "dummy"
    · simp [h1]
    · by_cases h2 : check.Type_ = "http"
      · simp [h1, h2]
      · simp [h1, h2, h]

theorem checkBody_ok_of_not_recognised (check : ServiceCheck) (io : ProbeIO)
    (v : CheckLoopVars) (h : ¬ recognised check) : (checkBody check io v).ok = v.ok := by
  unfold recognised at h
  simp only [not_or] at h
  unfold checkBody
  simp [h.1, h.2.1, h.2.2]

theorem checkBody_IsUp (check : ServiceCheck) (io : ProbeIO) (v : CheckLoopVars) :
    (checkBody check io v).IsUp = ((checkBody check io v).ok && v.IsUp) := by
  unfold checkBody
  simp only
  split <;> simp_all

theorem checkLoop_IsUp (checks : List ServiceCheck) :
    ∀ (io : Nat → ProbeIO) (v : CheckLoopVars), (v.ok = false → v.IsUp = false) →
      ((checkLoop checks io v).IsUp = true ↔
        (v.IsUp = true ∧
          ∀ n c, checks[n]? = some c → recognised c → probeResult c (io n) = true)) := by
  induction checks with
  | nil =>
    intro io v _
    simp [checkLoop]
  | cons check rest ih =>
    intro io v hv
    have hinv : (checkBody check (io 0) v).ok = false → (checkBody check (io 0) v).IsUp = false := by
      intro h
      rw [checkBody_IsUp, h]
      rfl
    simp only [checkLoop]
    rw [ih (fun n => io (n + 1)) (checkBody check (io 0) v) hinv, checkBody_IsUp]
    constructor
    · rintro ⟨h1, h2⟩
      simp only [Bool.and_eq_true] at h1
      refine ⟨h1.2, ?_⟩
      intro n c hn hc
      cases n with
      | zero =>
        simp only [List.getElem?_cons_zero, Option.some.injEq] at hn
        subst hn
        rw [← checkBody_ok_of_recognised check (io 0) v hc]
        exact h1.1
      | succ m =>
        simp only [List.getElem?_cons_succ] at hn
        exact h2 m c hn hc
    · rintro ⟨h1, h2⟩
      refine ⟨?_, ?_⟩
      · simp only [Bool.and_eq_true]
        refine ⟨?_, h1⟩
        by_cases hc : recognised check
        · rw [checkBody_ok_of_recognised check (io 0) v hc]
          exact h2 0 check (by simp) hc
        · rw [checkBody_ok_of_not_recognised check (io 0) v hc]
          by_contra hok
          simp only [Bool.not_eq_true] at hok
          rw [hv hok] at h1
          exact Bool.false_ne_true h1
      · intro n c hn hc
        exact h2 (n + 1) c (by simpa using hn) hc

theorem checkLoop_delay (checks : List ServiceCheck) :
    ∀ (io : Nat → ProbeIO) (v : CheckLoopVars),
      (checkLoop checks io v).delay = lastPositiveDelay checks v.delay := by
  induction checks with
  | nil =>
    intro io v
    simp [checkLoop, lastPositiveDelay]
  | cons check rest ih =>
    intro io v
    simp only [checkLoop]
    rw [ih]
    unfold lastPositiveDelay
    by_cases hd : check.Delay > 0
    · have hb : (checkBody check (io 0) v).delay = check.Delay := by
        simp [checkBody, hd]
      rw [hb, List.filter_cons_of_pos (by simpa using hd), List.getLast?_cons]
      cases hl : (List.filter (fun c => decide (c.Delay > 0)) rest).getLast? <;> simp
    · have hb : (checkBody check (io 0) v).delay = v.delay := by
        simp [checkBody, hd]
      rw [hb, List.filter_cons_of_neg (by simpa using hd)]

/-- C3: the event of one probe round has `IsUp = true` iff every check of a
recognised type returned true; a check of an unrecognised type keeps the
previous `ok`; a list without a recognised check (the empty list too) gives
`IsUp = true`. -/
theorem probeRound_IsUp_iff (endpointAddress : String) (w : WorkerState) (now : Nat)
    (io : Nat → ProbeIO) :
    ((probeRound endpointAddress w now io).2.IsUp = true ↔
      ∀ n c, w.serviceChecks.Checks[n]? = some c → recognised c →
        probeResult c (io n) = true) ∧
    (∀ (check : ServiceCheck) (p : ProbeIO) (v : CheckLoopVars), ¬ recognised check →
      (checkBody check p v).ok = v.ok) ∧
    ((∀ c ∈ w.serviceChecks.Checks, ¬ recognised c) →
      (probeRound endpointAddress w now io).2.IsUp = true) := by
  have key : (probeRound endpointAddress w now io).2.IsUp = true ↔
      ∀ n c, w.serviceChecks.Checks[n]? = some c → recognised c →
        probeResult c (io n) = true := by
    unfold probeRound
    simp only
    rw [checkLoop_IsUp w.serviceChecks.Checks io _ (by simp)]
    simp
  refine ⟨key, ?_, ?_⟩
  · intro check p v h
    exact checkBody_ok_of_not_recognised check p v h
  · intro h
    rw [key]
    intro n c hn hc
    exact absurd hc (h c (List.getElem?_mem hn))

theorem sleepDuration_eq_iff (delay : Int) :
    sleepDuration delay = 1000000 * delay ↔
      -9223372036855 < delay ∧ delay < 9223372036855 := by
  unfold sleepDuration wrapInt64 Millisecond
  omega

/-- C9 (as amended): after a probe round the worker's delay is the `Delay`
of the last check of the list whose `Delay` is positive, and the prior delay
when there is none (checks of any type count, and the worker keeps that
delay for the rounds that follow); the worker then sleeps for
`time.Millisecond * time.Duration(delay)` taken in `int64` nanoseconds,
which is that many milliseconds exactly when the delay lies strictly
between -9223372036855 and 9223372036855. -/
theorem probeRound_delay (endpointAddress : String) (w : WorkerState) (now : Nat)
    (io : Nat → ProbeIO) :
    (workerIteration endpointAddress w Poll.notReady now io).worker.delay =
        lastPositiveDelay w.serviceChecks.Checks w.delay ∧
    (workerIteration endpointAddress w Poll.notReady now io).sleep =
        some (sleepDuration (lastPositiveDelay w.serviceChecks.Checks w.delay)) ∧
    ((workerIteration endpointAddress w Poll.notReady now io).sleep =
        some (1000000 * lastPositiveDelay w.serviceChecks.Checks w.delay) ↔
      (-9223372036855 < lastPositiveDelay w.serviceChecks.Checks w.delay ∧
        lastPositiveDelay w.serviceChecks.Checks w.delay < 9223372036855)) := by
  have hd : (workerIteration endpointAddress w Poll.notReady now io).worker.delay =
      lastPositiveDelay w.serviceChecks.Checks w.delay := by
    simp [workerIteration, probeRound, checkLoop_delay]
  have hs : (workerIteration endpointAddress w Poll.notReady now io).sleep =
      some (sleepDuration (lastPositiveDelay w.serviceChecks.Checks w.delay)) := by
    simp [workerIteration, probeRound, checkLoop_delay]
  refine ⟨hd, hs, ?_⟩
  rw [hs, Option.some.injEq]
  exact sleepDuration_eq_iff _

/-- C9 (counterexample): a worker whose only check has `Delay` = 2^63 - 1
adopts that delay, and the duration it hands to `time.Sleep` is -1000000 ns
(minus one millisecond, so it does not sleep), not 2^63 - 1 milliseconds. -/
theorem probeRound_delay_wraps :
    lastPositiveDelay longDelayWorker.serviceChecks.Checks longDelayWorker.delay =
        9223372036854775807 ∧
    (workerIteration "10.0.0.1" longDelayWorker Poll.notReady 10 allDialsOk).worker.delay =
        9223372036854775807 ∧
    (workerIteration "10.0.0.1" longDelayWorker Poll.notReady 10 allDialsOk).sleep =
        some (-1000000) ∧
    (workerIteration "10.0.0.1" longDelayWorker Poll.notReady 10 allDialsOk).sleep ≠
        some (1000000 * 9223372036854775807) := by
  decide

/-- C5: in a probe round `StateChanged` is true exactly when the new state
differs from the state before the round, the new state is Up or Down, and
`SameStateSince` of the event (and of the worker) is the round's clock
reading when `StateChanged` is true and the previous value otherwise. -/
theorem probeRound_sameStateSince (endpointAddress : String) (w : WorkerState) (now : Nat)
    (io : Nat → ProbeIO) :
    (probeRound endpointAddress w now io).2.StateChanged =
        decide ((probeRound endpointAddress w now io).1.state ≠ w.state) ∧
    ((probeRound endpointAddress w now io).1.state = ServiceState.SSUp ∨
      (probeRound endpointAddress w now io).1.state = ServiceState.SSDown) ∧
    (probeRound endpointAddress w now io).2.SameStateSince =
        (if (probeRound endpointAddress w now io).2.StateChanged = true then now
         else w.sameStateSince) ∧
    (probeRound endpointAddress w now io).1.sameStateSince =
        (probeRound endpointAddress w now io).2.SameStateSince := by
  refine ⟨rfl, ?_, rfl, rfl⟩
  unfold probeRound
  simp only
  split
  · exact Or.inl rfl
  · exact Or.inr rfl

/-! ## Service probe worker: state transitions -/

theorem probeRound_StateChanged_of_unknown (endpointAddress : String) (w : WorkerState)
    (now : Nat) (io : Nat → ProbeIO) (h : w.state = ServiceState.SSUnknown) :
    (probeRound endpointAddress w now io).2.StateChanged = true := by
  unfold probeRound
  simp only [h]
  split <;> decide

theorem runWorker_head_of_unknown (endpointAddress : String) (inputs : List WorkerInput) :
    ∀ (w : WorkerState), w.state = ServiceState.SSUnknown →
      ∀ e, (runWorker endpointAddress w inputs).head? = some e → e.StateChanged = true := by
  induction inputs with
  | nil =>
    intro w _ e h
    simp [runWorker] at h
  | cons i rest ih =>
    intro w hw e h
    unfold runWorker at h
    cases hp : i.poll with
    | received sc =>
      simp only [workerIteration, hp, applyUpdate, Option.toList, List.nil_append] at h
      exact ih { w with serviceChecks := sc } hw e h
    | closed =>
      simp [workerIteration, hp] at h
    | notReady =>
      simp only [workerIteration, hp, Option.toList, List.singleton_append, List.head?_cons,
        Option.some.injEq] at h
      subst h
      exact probeRound_StateChanged_of_unknown endpointAddress w i.now i.io hw

/-- C4: the first event a newly created worker emits has
`StateChanged = true`, whatever updates it received before (none included)
and whatever the probes return. -/
theorem first_event_StateChanged (endpointAddress : String) (delay : Int)
    (inputs : List WorkerInput) (e : ServiceStateEvent)
    (h : (runWorker endpointAddress (WorkerState.init delay) inputs).head? = some e) :
    e.StateChanged = true :=
  runWorker_head_of_unknown endpointAddress inputs (WorkerState.init delay) rfl e h

/-- Witness of C4: a worker that gets `webChecks` and then runs a round with
a failing dial emits a first event, and it has `StateChanged = true`. -/
theorem first_event_StateChanged_witness :
    (runWorker "10.0.0.1" (WorkerState.init 2000) twoRounds).head? =
        some (probeRound "10.0.0.1" { WorkerState.init 2000 with serviceChecks := webChecks }
          10 firstDialFails).2 ∧
      (probeRound "10.0.0.1" { WorkerState.init 2000 with serviceChecks := webChecks }
          10 firstDialFails).2.StateChanged = true :=
  ⟨rfl, first_event_StateChanged "10.0.0.1" 2000 twoRounds _ rfl⟩

/-- C7: an update received on an open channel replaces the worker's
`serviceChecks` and nothing else: state, `sameStateSince` and round delay
are kept, no event is emitted, and the round that follows reports
`StateChanged` exactly when its new state differs from the state the worker
had before the update. -/
theorem applyUpdate_frame (endpointAddress : String) (w : WorkerState)
    (newServiceChecks : ServiceChecks) (t : Nat) (p : Nat → ProbeIO) :
    workerIteration endpointAddress w (Poll.received newServiceChecks) t p =
        applyUpdate w newServiceChecks ∧
    (applyUpdate w newServiceChecks).worker.serviceChecks = newServiceChecks ∧
    (applyUpdate w newServiceChecks).worker.state = w.state ∧
    (applyUpdate w newServiceChecks).worker.sameStateSince = w.sameStateSince ∧
    (applyUpdate w newServiceChecks).worker.delay = w.delay ∧
    (applyUpdate w newServiceChecks).event = none ∧
    (applyUpdate w newServiceChecks).sleep = some (sleepDuration w.delay) ∧
    (∀ (now : Nat) (io : Nat → ProbeIO),
      (probeRound endpointAddress (applyUpdate w newServiceChecks).worker now io).2.StateChanged =
        decide ((probeRound endpointAddress (applyUpdate w newServiceChecks).worker now io).1.state
          ≠ w.state)) :=
  ⟨rfl, rfl, rfl, rfl, rfl, rfl, rfl, fun _ _ => rfl⟩

/-- C2 (evaluation at the failing input): a worker with two TCP checks whose
first dial fails in the round at time 10 and succeeds in the round at time
20 (the second dial succeeds in both) emits two events that differ in
`IsUp` and have the same `SameStateSince`. -/
theorem twoRounds_events :
    (runWorker "10.0.0.1" (WorkerState.init 2000) twoRounds).map
        (fun e => (e.IsUp, e.StateChanged, e.SameStateSince)) =
      [(false, true, 10), (true, false, 10)] := by
  decide

/-! ## Check engine facade -/

/-- C1 (evaluation at the failing input): `Start` leaves `ce.jobs` and
`ce.results` as they were, and `Stop` on a zero-valued engine on which
`Start` has been called ends in the panic of `close(ce.jobs)`, a close of a
nil channel, before `ce.configurations` is closed. -/
theorem Stop_after_Start (h : Chans) (workers : Int) (results : Nat)
    (endpointAddress : String) (intervalInMs : Int) :
    (∀ ce : CheckEngine,
      (ce.Start h workers results endpointAddress intervalInMs).ce.jobs = ce.jobs ∧
      (ce.Start h workers results endpointAddress intervalInMs).ce.results = ce.results) ∧
    (CheckEngine.zero.Start h workers results endpointAddress intervalInMs).ce.configurations =
      some h.nextChan ∧
    (CheckEngine.zero.Start h workers results endpointAddress intervalInMs).ce.Stop
        (CheckEngine.zero.Start h workers results endpointAddress intervalInMs).chans =
      Except.error Fault.closeOfNilChannel :=
  ⟨fun _ => ⟨rfl, rfl⟩, rfl, rfl⟩

/-! ## Maps held as entry lists -/

theorem mapGet_eq_none_iff {β : Type} (m : List (String × β)) (name : String) :
    mapGet m name = none ↔ name ∉ m.map Prod.fst := by
  induction m with
  | nil => simp [mapGet]
  | cons e m ih =>
    obtain ⟨k, v⟩ := e
    unfold mapGet
    by_cases h : k = name
    · simp [h]
    · simp only [h, if_false, ih, List.map_cons, List.mem_cons, not_or]
      constructor
      · intro h2
        exact ⟨fun h3 => h h3.symm, h2⟩
      · intro h2
        exact h2.2

theorem mapGet_isSome_iff {β : Type} (m : List (String × β)) (name : String) :
    (mapGet m name).isSome = true ↔ name ∈ m.map Prod.fst := by
  rw [← not_iff_not, ← mapGet_eq_none_iff]
  cases mapGet m name <;> simp

theorem mem_of_mapGet {β : Type} (m : List (String × β)) (name : String) (v : β)
    (h : mapGet m name = some v) : (name, v) ∈ m := by
  induction m with
  | nil => simp [mapGet] at h
  | cons e m ih =>
    obtain ⟨k, x⟩ := e
    unfold mapGet at h
    by_cases hk : k = name
    · simp only [hk, if_true, Option.some.injEq] at h
      simp [hk, h]
    · simp only [hk, if_false] at h
      exact List.mem_cons_of_mem _ (ih h)

theorem mapDelete_of_absent {β : Type} (m : List (String × β)) (name : String)
    (h : mapGet m name = none) : mapDelete m name = m := by
  rw [mapGet_eq_none_iff] at h
  unfold mapDelete
  rw [List.filter_eq_self]
  intro e he
  simp only [ne_eq, decide_not, Bool.not_eq_true', decide_eq_false_iff_not]
  intro heq
  exact h (List.mem_map.2 ⟨e, he, heq⟩)

theorem mapGet_append_singleton {β : Type} (m : List (String × β)) (k name : String) (v : β) :
    mapGet (m ++ [(k, v)]) name =
      match mapGet m name with
      | some x => some x
      | none => if k = name then some v else none := by
  induction m with
  | nil => simp [mapGet]
  | cons e m ih =>
    obtain ⟨k1, x⟩ := e
    simp only [List.cons_append]
    unfold mapGet
    by_cases hk : k1 = name
    · simp [hk]
    · simp only [hk, if_false]
      exact ih

theorem mapGet_filter_key {β : Type} (m : List (String × β)) (q : String → Bool)
    (name : String) :
    mapGet (m.filter (fun e => q e.1)) name = if q name = true then mapGet m name else none := by
  induction m with
  | nil => simp [mapGet]
  | cons e m ih =>
    obtain ⟨k, x⟩ := e
    by_cases hq : q k = true
    · rw [List.filter_cons_of_pos (by simpa using hq)]
      unfold mapGet
      by_cases hk : k = name
      · subst hk
        simp [hq]
      · simp only [hk, if_false]
        exact ih
    · rw [List.filter_cons_of_neg (by simpa using hq), ih]
      by_cases hk : k = name
      · subst hk
        simp [hq]
      · conv_rhs => unfold mapGet
        simp [hk]

theorem key_unique_of_nodup_snd (m : List (String × Nat)) (a b : String) (c : Nat)
    (hnd : (m.map Prod.snd).Nodup) (ha : (a, c) ∈ m) (hb : (b, c) ∈ m) : a = b := by
  induction m with
  | nil => simp at ha
  | cons e m ih =>
    simp only [List.map_cons, List.nodup_cons] at hnd
    rcases List.mem_cons.1 ha with h1 | h1
    · rcases List.mem_cons.1 hb with h2 | h2
      · rw [← h2] at h1
        exact (Prod.mk.inj h1).1
      · exfalso
        apply hnd.1
        rw [← h1]
        exact List.mem_map.2 ⟨(b, c), h2, rfl⟩
    · rcases List.mem_cons.1 hb with h2 | h2
      · exfalso
        apply hnd.1
        rw [← h2]
        exact List.mem_map.2 ⟨(a, c), h1, rfl⟩
      · exact ih hnd.2 h1 h2

/-! ## Configuration dispatcher: removals -/

theorem removeLoop_spec (cfg : MachineConfiguration) (snap : List (String × Nat)) :
    ∀ st : DispatcherState, (snap.map Prod.snd).Nodup →
      (∀ e ∈ snap, e.2 ∉ st.chans.closed) →
      ∃ st1, removeLoop cfg snap st = Except.ok st1 ∧
        st1.serviceCheckWorkerChannels = st.serviceCheckWorkerChannels.filter
          (fun e => !(snap.any
            (fun r => decide (r.1 = e.1) && (mapGet cfg.Services r.1).isNone))) ∧
        st1.chans.nextChan = st.chans.nextChan ∧ st1.spawned = st.spawned ∧
        st1.sent = st.sent ∧
        (∀ c, c ∈ st1.chans.closed ↔
          c ∈ st.chans.closed ∨ ∃ name, (name, c) ∈ snap ∧ mapGet cfg.Services name = none) := by
  induction snap with
  | nil =>
    intro st _ _
    refine ⟨st, rfl, ?_, rfl, rfl, rfl, ?_⟩
    · simp
    · simp
  | cons e rest ih =>
    obtain ⟨name, c⟩ := e
    intro st hnd hopen
    simp only [List.map_cons, List.nodup_cons] at hnd
    cases hg : mapGet cfg.Services name with
    | some svc =>
      obtain ⟨st1, h1, h2, h3, h4, h5, h6⟩ :=
        ih st hnd.2 (fun e he => hopen e (List.mem_cons_of_mem _ he))
      refine ⟨st1, ?_, ?_, h3, h4, h5, ?_⟩
      · simp only [removeLoop, hg]
        exact h1
      · rw [h2]
        apply List.filter_congr
        intro e _
        simp [hg]
      · intro c1
        rw [h6 c1]
        constructor
        · rintro (h | ⟨n, hn, hn2⟩)
          · exact Or.inl h
          · exact Or.inr ⟨n, List.mem_cons_of_mem _ hn, hn2⟩
        · rintro (h | ⟨n, hn, hn2⟩)
          · exact Or.inl h
          · rcases List.mem_cons.1 hn with hh | hh
            · simp only [Prod.mk.injEq] at hh
              rw [hh.1, hg] at hn2
              exact absurd hn2 (by simp)
            · exact Or.inr ⟨n, hh, hn2⟩
    | none =>
      have hc : c ∉ st.chans.closed := hopen (name, c) (List.mem_cons_self _ _)
      have hrest : ∀ e ∈ rest, e.2 ∉ c :: st.chans.closed := by
        intro e he hmem
        rcases List.mem_cons.1 hmem with hh | hh
        · apply hnd.1
          rw [← hh]
          exact List.mem_map.2 ⟨e, he, rfl⟩
        · exact hopen e (List.mem_cons_of_mem _ he) hh
      obtain ⟨st1, h1, h2, h3, h4, h5, h6⟩ :=
        ih { st with chans := { st.chans with closed := c :: st.chans.closed },
                     serviceCheckWorkerChannels := mapDelete st.serviceCheckWorkerChannels name }
          hnd.2 hrest
      refine ⟨st1, ?_, ?_, h3, h4, h5, ?_⟩
      · simp only [removeLoop, hg, Chans.close, hc, if_false]
        exact h1
      · rw [h2]
        simp only [mapDelete, List.filter_filter]
        apply List.filter_congr
        intro e _
        by_cases hk : name = e.1
        · simp [← hk, hg]
        · have hk2 : ¬ e.1 = name := fun h => hk h.symm
          simp [hk, hk2, hg]
      · intro c1
        rw [h6 c1]
        simp only [List.mem_cons]
        constructor
        · rintro ((h | h) | ⟨n, hn, hn2⟩)
          · exact Or.inr ⟨name, Or.inl (by rw [h]), hg⟩
          · exact Or.inl h
          · exact Or.inr ⟨n, Or.inr hn, hn2⟩
        · rintro (h | ⟨n, hn | hn, hn2⟩)
          · exact Or.inl (Or.inr h)
          · simp only [Prod.mk.injEq] at hn
            exact Or.inl (Or.inl hn.2)
          · exact Or.inr ⟨n, hn, hn2⟩

/-! ## Configuration dispatcher: additions and updates -/

theorem Grows.trans {args : DispatcherArgs} {st st1 st2 : DispatcherState}
    {new1 new2 : List WorkerArgs} (h1 : Grows args st st1 new1) (h2 : Grows args st1 st2 new2) :
    Grows args st st2 (new1 ++ new2) where
  closed_eq := by rw [h2.closed_eq, h1.closed_eq]
  next_le := Nat.le_trans h1.next_le h2.next_le
  kept := fun name c h => h2.kept name c (h1.kept name c h)
  spawned_eq := by rw [h2.spawned_eq, h1.spawned_eq, List.append_assoc]
  started := by
    intro w hw
    rcases List.mem_append.1 hw with hw | hw
    · obtain ⟨a, b, d, c, name, hc, hle, hn, hs⟩ := h1.started w hw
      exact ⟨a, b, d, c, name, hc, hle, hn, h2.kept name c hs⟩
    · obtain ⟨a, b, d, c, name, hc, hle, hn, hs⟩ := h2.started w hw
      refine ⟨a, b, d, c, name, hc, Nat.le_trans h1.next_le hle, ?_, hs⟩
      cases hg : mapGet st.serviceCheckWorkerChannels name with
      | none => rfl
      | some x =>
        rw [h1.kept name x hg] at hn
        exact absurd hn (by simp)
  fresh := by
    intro name c hn hs
    cases hg : mapGet st1.serviceCheckWorkerChannels name with
    | none =>
      obtain ⟨hle, hw⟩ := h2.fresh name c hg hs
      exact ⟨Nat.le_trans h1.next_le hle, List.mem_append_right _ hw⟩
    | some x =>
      have hx := h2.kept name x hg
      rw [hs] at hx
      cases hx
      obtain ⟨hle, hw⟩ := h1.fresh name c hn hg
      exact ⟨hle, List.mem_append_left _ hw⟩

theorem ensureWorker_send_found (args : DispatcherArgs) (st : DispatcherState) (name : String)
    (cc : ServiceChecks) (c : Nat) (hwf : st.WF)
    (hg : mapGet st.serviceCheckWorkerChannels name = some c) :
    ∃ st2, sendChecks (ensureWorker args st name)
        (mapGet (ensureWorker args st name).serviceCheckWorkerChannels name) cc = Except.ok st2 ∧
      st2.WF ∧ Grows args st st2 [] ∧
      st2.serviceCheckWorkerChannels = st.serviceCheckWorkerChannels := by
  have hmem := mem_of_mapGet _ _ _ hg
  obtain ⟨w1, w2, w3, w4, w5, w6⟩ := hwf
  have hopen : c ∉ st.chans.closed := (w3 (name, c) hmem).2.1
  have he : ensureWorker args st name = st := by
    simp [ensureWorker, hg]
  refine ⟨{ st with sent := st.sent ++ [(c, cc)] }, ?_, ?_, ?_, rfl⟩
  · rw [he, hg]
    simp [sendChecks, hopen]
  · exact ⟨w1, w2, w3, w4, w5, w6⟩
  · exact
      { closed_eq := rfl
        next_le := Nat.le_refl _
        kept := fun _ _ h => h
        spawned_eq := by simp
        started := by simp
        fresh := by
          intro n c1 hn hs
          rw [hn] at hs
          exact absurd hs (by simp) }

theorem ensureWorker_of_absent (args : DispatcherArgs) (st : DispatcherState) (name : String)
    (hg : mapGet st.serviceCheckWorkerChannels name = none) :
    ensureWorker args st name =
      { serviceCheckWorkerChannels := st.serviceCheckWorkerChannels ++ [(name, st.chans.nextChan)],
        chans := { nextChan := st.chans.nextChan + 1, closed := st.chans.closed },
        spawned := st.spawned ++
          [{ serviceChecksChannel := some st.chans.nextChan, results := args.results,
             endpointAddress := args.endpointAddress, delay := args.delay }],
        sent := st.sent } := by
  have hm : mapSet st.serviceCheckWorkerChannels name st.chans.nextChan =
      st.serviceCheckWorkerChannels ++ [(name, st.chans.nextChan)] := by
    unfold mapSet
    rw [mapDelete_of_absent _ _ hg]
  have hget : mapGet (st.serviceCheckWorkerChannels ++ [(name, st.chans.nextChan)]) name =
      some st.chans.nextChan := by
    rw [mapGet_append_singleton, hg]
    simp
  simp only [ensureWorker, hg, Chans.make, hm, hget]

theorem ensureWorker_send_absent (args : DispatcherArgs) (st : DispatcherState) (name : String)
    (cc : ServiceChecks) (hwf : st.WF)
    (hg : mapGet st.serviceCheckWorkerChannels name = none) :
    ∃ st2, sendChecks (ensureWorker args st name)
        (mapGet (ensureWorker args st name).serviceCheckWorkerChannels name) cc = Except.ok st2 ∧
      st2.WF ∧
      Grows args st st2
        [{ serviceChecksChannel := some st.chans.nextChan, results := args.results,
           endpointAddress := args.endpointAddress, delay := args.delay }] ∧
      st2.serviceCheckWorkerChannels =
        st.serviceCheckWorkerChannels ++ [(name, st.chans.nextChan)] := by
  obtain ⟨w1, w2, w3, w4, w5, w6⟩ := hwf
  have hfresh : st.chans.nextChan ∉ st.chans.closed := fun h =>
    Nat.lt_irrefl _ (w6 _ h)
  have hget : mapGet (st.serviceCheckWorkerChannels ++ [(name, st.chans.nextChan)]) name =
      some st.chans.nextChan := by
    rw [mapGet_append_singleton, hg]
    simp
  rw [ensureWorker_of_absent args st name hg]
  simp only [hget, sendChecks, hfresh, if_false]
  refine ⟨_, rfl, ?_, ?_, rfl⟩
  · refine ⟨?_, ?_, ?_, ?_, ?_, ?_⟩
    · simp only [List.map_append, List.map_cons, List.map_nil]
      rw [List.nodup_append]
      refine ⟨w1, List.nodup_singleton _, ?_⟩
      intro a ha hb
      simp only [List.mem_singleton] at hb
      subst hb
      exact (mapGet_eq_none_iff _ _).1 hg ha
    · simp only [List.map_append, List.map_cons, List.map_nil]
      rw [List.nodup_append]
      refine ⟨w2, List.nodup_singleton _, ?_⟩
      intro a ha hb
      simp only [List.mem_singleton] at hb
      subst hb
      obtain ⟨e, he, he2⟩ := List.mem_map.1 ha
      have := (w3 e he).1
      omega
    · intro e he
      simp only [List.mem_append, List.mem_singleton] at he
      simp only [List.map_append, List.map_cons, List.map_nil, List.mem_append,
        List.mem_singleton]
      rcases he with he | he
      · obtain ⟨a, b, c⟩ := w3 e he
        exact ⟨by omega, b, Or.inl c⟩
      · subst he
        exact ⟨by simp, hfresh, Or.inr rfl⟩
    · simp only [List.map_append, List.map_cons, List.map_nil]
      rw [List.nodup_append]
      refine ⟨w4, List.nodup_singleton _, ?_⟩
      intro a ha hb
      simp only [List.mem_singleton] at hb
      subst hb
      obtain ⟨w, hw, hw2⟩ := List.mem_map.1 ha
      obtain ⟨c, hc, hlt⟩ := w5 w hw
      rw [hw2] at hc
      simp only [Option.mem_def, Option.some.injEq] at hc
      omega
    · intro w hw
      simp only [List.mem_append, List.mem_singleton] at hw
      rcases hw with hw | hw
      · obtain ⟨c, hc, hlt⟩ := w5 w hw
        exact ⟨c, hc, by simp only; omega⟩
      · subst hw
        exact ⟨st.chans.nextChan, rfl, by simp⟩
    · intro c hc
      have := w6 c hc
      simp only
      omega
  · exact
      { closed_eq := rfl
        next_le := Nat.le_succ _
        kept := by
          intro n c h
          simp only
          rw [mapGet_append_singleton, h]
        spawned_eq := rfl
        started := by
          intro w hw
          simp only [List.mem_singleton] at hw
          subst hw
          exact ⟨rfl, rfl, rfl, st.chans.nextChan, name, rfl, Nat.le_refl _, hg, hget⟩
        fresh := by
          intro n c hn hs
          simp only at hs
          rw [mapGet_append_singleton, hn] at hs
          by_cases hk : name = n
          · simp only [hk, if_true, Option.some.injEq] at hs
            subst hs
            exact ⟨Nat.le_refl _, List.mem_singleton.2 rfl⟩
          · simp [hk] at hs }

theorem addLoop_spec (args : DispatcherArgs) (entries : List (String × ServiceConfiguration)) :
    ∀ st : DispatcherState, st.WF →
      ∃ st1 new, addLoop args entries st = Except.ok st1 ∧ st1.WF ∧ Grows args st st1 new ∧
        ∀ n, n ∈ st1.serviceCheckWorkerChannels.map Prod.fst ↔
          n ∈ st.serviceCheckWorkerChannels.map Prod.fst ∨ n ∈ entries.map Prod.fst := by
  induction entries with
  | nil =>
    intro st hwf
    refine ⟨st, [], rfl, hwf, ?_, by simp⟩
    exact
      { closed_eq := rfl
        next_le := Nat.le_refl _
        kept := fun _ _ h => h
        spawned_eq := by simp
        started := by simp
        fresh := by
          intro n c hn hs
          rw [hn] at hs
          exact absurd hs (by simp) }
  | cons e rest ih =>
    obtain ⟨name, service⟩ := e
    intro st hwf
    cases hg : mapGet st.serviceCheckWorkerChannels name with
    | some c =>
      obtain ⟨st2, hsend, hwf2, hgrow, hmap⟩ :=
        ensureWorker_send_found args st name (buildServiceChecks name service) c hwf hg
      obtain ⟨st3, new, hrun, hwf3, hgrow3, hkeys⟩ := ih st2 hwf2
      refine ⟨st3, [] ++ new, ?_, hwf3, hgrow.trans hgrow3, ?_⟩
      · simp only [addLoop, hsend]
        exact hrun
      · intro n
        rw [hkeys n, hmap]
        have hname : name ∈ st.serviceCheckWorkerChannels.map Prod.fst :=
          (mapGet_isSome_iff _ _).1 (by simp [hg])
        simp only [List.map_cons, List.mem_cons]
        constructor
        · rintro (h | h)
          · exact Or.inl h
          · exact Or.inr (Or.inr h)
        · rintro (h | h | h)
          · exact Or.inl h
          · exact Or.inl (h ▸ hname)
          · exact Or.inr h
    | none =>
      obtain ⟨st2, hsend, hwf2, hgrow, hmap⟩ :=
        ensureWorker_send_absent args st name (buildServiceChecks name service) hwf hg
      obtain ⟨st3, new, hrun, hwf3, hgrow3, hkeys⟩ := ih st2 hwf2
      refine ⟨st3, _ ++ new, ?_, hwf3, hgrow.trans hgrow3, ?_⟩
      · simp only [addLoop, hsend]
        exact hrun
      · intro n
        rw [hkeys n, hmap]
        simp only [List.map_append, List.map_cons, List.map_nil, List.mem_append,
          List.mem_singleton, List.mem_cons]
        tauto

/-! ## Configuration dispatcher: one received configuration -/

theorem DispatcherState.init_WF (chans : Chans) (h : ∀ c ∈ chans.closed, c < chans.nextChan) :
    (DispatcherState.init chans).WF := by
  refine ⟨?_, ?_, ?_, ?_, ?_, h⟩ <;> simp [DispatcherState.init]

/-- C6: from a state that satisfies the dispatcher's invariant, processing a
received configuration completes and keeps the invariant; afterwards the
names of the worker map are exactly the service names of the configuration;
a mapped name absent from the configuration has its channel closed and its
entry dropped; a name present in both keeps its channel, which stays open
and gets no second worker; a configuration name without a worker gets a
channel that did not exist before, with a worker started on it; and no
other worker is started. -/
theorem processConfiguration_reconciles (args : DispatcherArgs) (st : DispatcherState)
    (newConf : MachineConfiguration) (hwf : st.WF) :
    ∃ st1 new, processConfiguration args st newConf = Except.ok st1 ∧ st1.WF ∧
      st1.spawned = st.spawned ++ new ∧
      (∀ name, name ∈ st1.serviceCheckWorkerChannels.map Prod.fst ↔
        name ∈ newConf.Services.map Prod.fst) ∧
      (∀ name c, mapGet st.serviceCheckWorkerChannels name = some c →
        mapGet newConf.Services name = none →
        c ∈ st1.chans.closed ∧ mapGet st1.serviceCheckWorkerChannels name = none) ∧
      (∀ name c, mapGet st.serviceCheckWorkerChannels name = some c →
        (mapGet newConf.Services name).isSome = true →
        mapGet st1.serviceCheckWorkerChannels name = some c ∧ c ∉ st1.chans.closed ∧
          ∀ w ∈ new, w.serviceChecksChannel ≠ some c) ∧
      (∀ name, mapGet st.serviceCheckWorkerChannels name = none →
        (mapGet newConf.Services name).isSome = true →
        ∃ c, mapGet st1.serviceCheckWorkerChannels name = some c ∧ st.chans.nextChan ≤ c ∧
          c ∉ st1.chans.closed ∧
          ({ serviceChecksChannel := some c, results := args.results,
             endpointAddress := args.endpointAddress, delay := args.delay } : WorkerArgs) ∈ new) ∧
      (∀ w ∈ new, ∃ name c, w.serviceChecksChannel = some c ∧
        mapGet st.serviceCheckWorkerChannels name = none ∧
        (mapGet newConf.Services name).isSome = true ∧
        mapGet st1.serviceCheckWorkerChannels name = some c) := by
  obtain ⟨w1, w2, w3, w4, w5, w6⟩ := hwf
  -- the removal loop
  obtain ⟨sr, hrem, hrmap, hrnext, hrspawned, _, hrclosed⟩ :=
    removeLoop_spec newConf st.serviceCheckWorkerChannels st w2 (fun e he => (w3 e he).2.1)
  have hfilter : sr.serviceCheckWorkerChannels =
      st.serviceCheckWorkerChannels.filter (fun e => (mapGet newConf.Services e.1).isSome) := by
    rw [hrmap]
    apply List.filter_congr
    intro e he
    cases hq : mapGet newConf.Services e.1 with
    | some x =>
      simp only [Option.isSome_some, Bool.not_eq_true', List.any_eq_false, Bool.and_eq_true,
        decide_eq_true_eq, not_and]
      intro r _ hr
      rw [hr, hq]
      simp
    | none =>
      simp only [Option.isSome_none, Bool.not_eq_false', List.any_eq_true, Bool.and_eq_true,
        decide_eq_true_eq]
      exact ⟨e, he, rfl, by simp [hq]⟩
  have hsub : sr.serviceCheckWorkerChannels.Sublist st.serviceCheckWorkerChannels := by
    rw [hfilter]
    exact List.filter_sublist _
  have hrget : ∀ name, mapGet sr.serviceCheckWorkerChannels name =
      if (mapGet newConf.Services name).isSome = true
      then mapGet st.serviceCheckWorkerChannels name else none := by
    intro name
    rw [hfilter]
    exact mapGet_filter_key st.serviceCheckWorkerChannels
      (fun k => (mapGet newConf.Services k).isSome) name
  have hkept_open : ∀ e ∈ sr.serviceCheckWorkerChannels, e.2 ∉ sr.chans.closed := by
    intro e he hcl
    have hest : e ∈ st.serviceCheckWorkerChannels := hsub.subset he
    rcases (hrclosed e.2).1 hcl with h | ⟨n, hn, hn2⟩
    · exact (w3 e hest).2.1 h
    · have hk : n = e.1 := key_unique_of_nodup_snd _ n e.1 e.2 w2 hn hest
      rw [hfilter] at he
      have := (List.mem_filter.1 he).2
      rw [← hk, hn2] at this
      simp at this
  have hwfr : sr.WF := by
    refine ⟨(hsub.map Prod.fst).nodup w1, (hsub.map Prod.snd).nodup w2, ?_, ?_, ?_, ?_⟩
    · intro e he
      have hest : e ∈ st.serviceCheckWorkerChannels := hsub.subset he
      obtain ⟨a, _, c⟩ := w3 e hest
      rw [hrnext, hrspawned]
      exact ⟨a, hkept_open e he, c⟩
    · rw [hrspawned]
      exact w4
    · rw [hrspawned, hrnext]
      exact w5
    · intro c hc
      rw [hrnext]
      rcases (hrclosed c).1 hc with h | ⟨n, hn, _⟩
      · exact w6 c h
      · exact (w3 (n, c) hn).1
  -- the loop over the services of the configuration
  obtain ⟨sa, new, hadd, hwfa, hgrow, hkeys⟩ := addLoop_spec args newConf.Services sr hwfr
  refine ⟨sa, new, ?_, hwfa, ?_, ?_, ?_, ?_, ?_, ?_⟩
  · simp only [processConfiguration, hrem]
    exact hadd
  · rw [hgrow.spawned_eq, hrspawned]
  · intro name
    rw [hkeys name]
    constructor
    · rintro (h | h)
      · have h2 := (mapGet_isSome_iff _ _).2 h
        rw [hrget name] at h2
        by_cases hq : (mapGet newConf.Services name).isSome = true
        · exact (mapGet_isSome_iff _ _).1 hq
        · simp [hq] at h2
      · exact h
    · intro h
      exact Or.inr h
  · intro name c hg hq
    have hmem := mem_of_mapGet _ _ _ hg
    have hnone : mapGet sr.serviceCheckWorkerChannels name = none := by
      rw [hrget name, hq]
      simp
    refine ⟨?_, ?_⟩
    · rw [hgrow.closed_eq, hrclosed c]
      exact Or.inr ⟨name, hmem, hq⟩
    · rw [mapGet_eq_none_iff, hkeys name]
      exact not_or.2 ⟨(mapGet_eq_none_iff _ _).1 hnone, (mapGet_eq_none_iff _ _).1 hq⟩
  · intro name c hg hq
    have hsome : mapGet sr.serviceCheckWorkerChannels name = some c := by
      rw [hrget name, hq]
      simpa using hg
    have hmem := mem_of_mapGet _ _ _ hsome
    refine ⟨hgrow.kept name c hsome, ?_, ?_⟩
    · rw [hgrow.closed_eq]
      exact hkept_open (name, c) hmem
    · intro w hw heq
      obtain ⟨_, _, _, c1, _, hc1, hle, _, _⟩ := hgrow.started w hw
      rw [heq] at hc1
      cases hc1
      have := (w3 (name, c) (mem_of_mapGet _ _ _ hg)).1
      omega
  · intro name hg hq
    have hnone : mapGet sr.serviceCheckWorkerChannels name = none := by
      rw [hrget name, hq]
      simpa using hg
    have hin : name ∈ sa.serviceCheckWorkerChannels.map Prod.fst :=
      (hkeys name).2 (Or.inr ((mapGet_isSome_iff _ _).1 hq))
    have hsome := (mapGet_isSome_iff _ _).2 hin
    obtain ⟨c, hc⟩ := Option.isSome_iff_exists.1 hsome
    obtain ⟨hle, hw⟩ := hgrow.fresh name c hnone hc
    refine ⟨c, hc, by omega, ?_, hw⟩
    obtain ⟨_, _, h3, _⟩ := hwfa
    exact (h3 (name, c) (mem_of_mapGet _ _ _ hc)).2.1
  · intro w hw
    obtain ⟨_, _, _, c, name, hc, _, hn, hs⟩ := hgrow.started w hw
    have hin : name ∈ sa.serviceCheckWorkerChannels.map Prod.fst :=
      (mapGet_isSome_iff _ _).1 (by simp [hs])
    have hcfg : (mapGet newConf.Services name).isSome = true := by
      rcases (hkeys name).1 hin with h | h
      · have := (mapGet_eq_none_iff _ _).1 hn
        exact absurd h this
      · exact (mapGet_isSome_iff _ _).2 h
    refine ⟨name, c, hc, ?_, hcfg, hs⟩
    rw [hrget name, hcfg] at hn
    simpa using hn

/-- Witness of C6: a dispatcher with workers for `A` and `B` that receives
the configuration `B`, `C` closes the channel of `A`, keeps the channel of
`B` and makes channel `3` for `C`, with one new worker. -/
theorem processConfiguration_reconciles_witness :
    runningAB.WF ∧
    ∃ st1 new, processConfiguration nodeArgs runningAB confBC = Except.ok st1 ∧ st1.WF ∧
      st1.spawned = runningAB.spawned ++ new ∧
      (∀ name, name ∈ st1.serviceCheckWorkerChannels.map Prod.fst ↔
        name ∈ confBC.Services.map Prod.fst) :=
  ⟨by decide,
    match processConfiguration_reconciles nodeArgs runningAB confBC (by decide) with
    | ⟨st1, new, h1, h2, h3, h4, _⟩ => ⟨st1, new, h1, h2, h3, h4⟩⟩

theorem processConfiguration_AB_to_BC :
    (processConfiguration nodeArgs runningAB confBC).toOption.map
        (fun st => (st.serviceCheckWorkerChannels, st.chans, st.spawned.length)) =
      some ([("B", 2), ("C", 3)], { nextChan := 4, closed := [1] }, 3) := by
  decide

/-! ## The default delay handed to the workers -/

theorem removeLoop_spawned (cfg : MachineConfiguration) (snap : List (String × Nat)) :
    ∀ st st1 : DispatcherState, removeLoop cfg snap st = Except.ok st1 →
      st1.spawned = st.spawned := by
  induction snap with
  | nil =>
    intro st st1 h
    simp only [removeLoop, Except.ok.injEq] at h
    rw [← h]
  | cons e rest ih =>
    obtain ⟨name, c⟩ := e
    intro st st1 h
    unfold removeLoop at h
    cases hg : mapGet cfg.Services name with
    | some svc =>
      simp only [hg] at h
      exact ih st st1 h
    | none =>
      simp only [hg] at h
      cases hc : st.chans.close (some c) with
      | error f => simp [hc] at h
      | ok chans =>
        simp only [hc] at h
        have h2 := ih _ st1 h
        exact h2

theorem ensureWorker_spawned (args : DispatcherArgs) (st : DispatcherState) (name : String) :
    ∀ w ∈ (ensureWorker args st name).spawned, w ∈ st.spawned ∨ w.delay = args.delay := by
  intro w hw
  unfold ensureWorker at hw
  cases hg : mapGet st.serviceCheckWorkerChannels name with
  | some c =>
    simp only [hg] at hw
    exact Or.inl hw
  | none =>
    simp only [hg, List.mem_append, List.mem_singleton] at hw
    rcases hw with hw | hw
    · exact Or.inl hw
    · exact Or.inr (by rw [hw])

theorem sendChecks_spawned (st st1 : DispatcherState) (ch : Option Nat) (cc : ServiceChecks)
    (h : sendChecks st ch cc = Except.ok st1) : st1.spawned = st.spawned := by
  unfold sendChecks at h
  cases ch with
  | none => simp at h
  | some c =>
    simp only at h
    split at h
    · simp at h
    · simp only [Except.ok.injEq] at h
      rw [← h]

theorem addLoop_spawned (args : DispatcherArgs) (entries : List (String × ServiceConfiguration)) :
    ∀ st st1 : DispatcherState, addLoop args entries st = Except.ok st1 →
      ∀ w ∈ st1.spawned, w ∈ st.spawned ∨ w.delay = args.delay := by
  induction entries with
  | nil =>
    intro st st1 h w hw
    simp only [addLoop, Except.ok.injEq] at h
    rw [← h] at hw
    exact Or.inl hw
  | cons e rest ih =>
    obtain ⟨name, service⟩ := e
    intro st st1 h w hw
    simp only [addLoop] at h
    cases hs : sendChecks (ensureWorker args st name)
        (mapGet (ensureWorker args st name).serviceCheckWorkerChannels name)
        (buildServiceChecks name service) with
    | error f => simp [hs] at h
    | ok st2 =>
      simp only [hs] at h
      rcases ih st2 st1 h w hw with h2 | h2
      · rw [sendChecks_spawned _ _ _ _ hs] at h2
        exact ensureWorker_spawned args st name w h2
      · exact Or.inr h2

/-- C10: two calls of `Start` that differ only in `workers` and
`intervalInMs` give the same result; the dispatcher is started with the
default delay 2000, and every worker it starts while processing a
configuration is started with the delay 2000. -/
theorem Start_delay_constant (ce : CheckEngine) (h : Chans) (workers1 workers2 : Int)
    (results : Nat) (endpointAddress : String) (intervalInMs1 intervalInMs2 : Int) :
    ce.Start h workers1 results endpointAddress intervalInMs1 =
        ce.Start h workers2 results endpointAddress intervalInMs2 ∧
    (ce.Start h workers1 results endpointAddress intervalInMs1).dispatcher.delay = 2000 ∧
    (∀ (st st1 : DispatcherState) (newConf : MachineConfiguration),
      processConfiguration (ce.Start h workers1 results endpointAddress intervalInMs1).dispatcher
          st newConf = Except.ok st1 →
      ∀ w ∈ st1.spawned, w ∈ st.spawned ∨ w.delay = 2000) := by
  refine ⟨rfl, rfl, ?_⟩
  intro st st1 newConf hp w hw
  unfold processConfiguration at hp
  cases hr : removeLoop newConf st.serviceCheckWorkerChannels st with
  | error f => simp [hr] at hp
  | ok sr =>
    simp only [hr] at hp
    have := addLoop_spawned _ newConf.Services sr st1 hp w hw
    rw [removeLoop_spawned newConf _ st sr hr] at this
    exact this

end Containrunner
